import Mathlib

/-!
A shallow embedding of `src/audit_logger.py` (class `AuditLogger`), the
hash-chained audit log, together with proofs about its append
(`log_change`), verification (`verify_chain_integrity`) and history
(`get_resource_history`) operations.

Modelling conventions:

* The `audit_logs` table is a `DB`: the list of committed rows in ascending
  `created_at` order (the code only ever sorts by `created_at`; rows are
  modelled in that order, i.e. a strictly monotone commit clock, which is the
  code's sequential behaviour).  `ORDER BY created_at DESC` is the reverse of
  that list, `ORDER BY created_at DESC LIMIT 1` is its last element.
* JSONB values (`old_values` / `new_values`) are `Jval`; arrays and objects
  are cons-encoded so that the serializer is structurally recursive.  An
  object stands for a Python dict via its key-sorted association list, which
  is exactly the order `json.dumps(..., sort_keys=True)` renders, so the
  serializer below renders fields in list order.  String escaping is modelled
  for the escapes `\"`, `\\`, `\n`, `\t`, `\r` (the ASCII fragment used
  throughout); `NULL` columns and Python `None` are `Option.none`.
* `hmac.new(secret_key, m, sha256).hexdigest()` is an abstract keyed hash
  `mac : String → String` (the secret key is folded into the function).
  Tamper-detection theorems assume `mac` is collision-free
  (`Function.Injective mac`), which is what HMAC-SHA256 provides in practice;
  witnesses instantiate `mac` with an injective concrete function.
* `log_change` computes `datetime.utcnow().isoformat()` (modelled as the
  input `tsPy`) for the hashed payload, while the database independently
  assigns `created_at` (modelled as the input `tsDb`, stored in its rendered
  `isoformat()` form).  The two are distinct values in the code; they are
  therefore distinct parameters here.
* The `INSERT` can fail on the `hash TEXT UNIQUE` constraint; `log_change`
  then rolls back and raises, modelled as returning the unchanged `DB` and
  `none` instead of the new log id.
-/

namespace AuditLog

/-- JSONB / Python JSON values.  Arrays and objects are cons-encoded
(`jarrCons`/`jobjCons`) so that serialization is structurally recursive; an
object represents a dict by its key-sorted association list. -/
inductive Jval where
  | jnull : Jval
  | jbool : Bool → Jval
  | jnum : Int → Jval
  | jstr : String → Jval
  | jarrNil : Jval
  | jarrCons : Jval → Jval → Jval
  | jobjNil : Jval
  | jobjCons : String → Jval → Jval → Jval
deriving DecidableEq

/-- JSON string escaping of one character (the fragment of `json.dumps`
escaping exercised here: quote, backslash and common control characters). -/
def escChar (c : Char) : String :=
  if c = '"' then "\\\""
  else if c = '\\' then "\\\\"
  else if c = '\n' then "\\n"
  else if c = '\t' then "\\t"
  else if c = '\r' then "\\r"
  else String.singleton c

/-- JSON string escaping, character by character. -/
def escapeStr (s : String) : String :=
  String.join (s.data.map escChar)

/-- Render a JSON string literal: `"..."` with escapes. -/
def dumpStr (s : String) : String :=
  "\"" ++ escapeStr s ++ "\""

/-- Serializer for `Jval`, mirroring `json.dumps(v, sort_keys=True)` with its
default separators `", "` and `": "`.  Returns the rendered value together
with the rendered bracket-free contents of a collection node (the second
component), so that the recursion over the cons-encoding stays structural. -/
def dumpP : Jval → String × String
  | .jnull => ("null", "null")
  | .jbool true => ("true", "true")
  | .jbool false => ("false", "false")
  | .jnum n => (toString n, toString n)
  | .jstr s => (dumpStr s, dumpStr s)
  | .jarrNil => ("[]", "")
  | .jarrCons hd tl =>
      let h := dumpP hd
      let t := dumpP tl
      let inner := match tl with
        | .jarrNil => h.1
        | _ => h.1 ++ ", " ++ t.2
      ("[" ++ inner ++ "]", inner)
  | .jobjNil => ("\x7b\x7d", "")
  | .jobjCons k v tl =>
      let hv := dumpP v
      let t := dumpP tl
      let inner := match tl with
        | .jobjNil => dumpStr k ++ ": " ++ hv.1
        | _ => dumpStr k ++ ": " ++ hv.1 ++ ", " ++ t.2
      ("\x7b" ++ inner ++ "\x7d", inner)

/-- Serialization of a JSON value, i.e. `json.dumps(v, sort_keys=True)`. -/
def dumpJval (v : Jval) : String := (dumpP v).1

/-- Python truthiness of a JSON value: `None`-like, `False`, `0`, `""`, `[]`
and `{}` are falsy, everything else truthy. -/
def vtruthy : Jval → Bool
  | .jnull => false
  | .jbool b => b
  | .jnum n => n != 0
  | .jstr s => s != ""
  | .jarrNil => false
  | .jarrCons _ _ => true
  | .jobjNil => false
  | .jobjCons _ _ _ => true

/-- Python truthiness of an optional value (`None` is falsy). -/
def truthyOpt : Option Jval → Bool
  | none => false
  | some v => vtruthy v

/-- The dictionary hashed by `_compute_hash` / rebuilt by
`verify_chain_integrity`: keys `actor`, `action`, `resource`, `timestamp`,
`old`, `new`.  `timestamp` is `Option` because the verifier writes `None`
when `created_at` is `NULL`. -/
structure LogData where
  actor : String
  action : String
  resource : String
  timestamp : Option String
  old : Option Jval
  new : Option Jval

/-- Serialization of an optional JSON value (`None` renders as `null`). -/
def dumpOpt : Option Jval → String
  | none => "null"
  | some v => dumpJval v

/-- Serialization of an optional string (`None` renders as `null`). -/
def dumpOptStr : Option String → String
  | none => "null"
  | some s => dumpStr s

/-- Serialization of the hashed dictionary,
`json.dumps(log_data, sort_keys=True)`: the six keys render in sorted order
`action, actor, new, old, resource, timestamp`.  The grouping isolates the
`old` field for cancellation arguments. -/
def dumpsLogData (d : LogData) : String :=
  ("\x7b\"action\": " ++ dumpStr d.action ++ ", \"actor\": " ++ dumpStr d.actor
      ++ ", \"new\": " ++ dumpOpt d.new ++ ", \"old\": ")
    ++ (dumpOpt d.old
      ++ (", \"resource\": " ++ dumpStr d.resource ++ ", \"timestamp\": "
        ++ dumpOptStr d.timestamp ++ "\x7d"))

/-- `AuditLogger._compute_hash`: the keyed hash of
`f"{previous_hash}:{json.dumps(data, sort_keys=True)}"`.  `mac` stands for
`hmac.new(secret_key, ·, sha256).hexdigest()`. -/
def compute_hash (mac : String → String) (previous_hash : String) (data : LogData) : String :=
  mac ((previous_hash ++ ":") ++ dumpsLogData data)

/-- One committed row of the `audit_logs` table.  `created_at` is stored in
its rendered `isoformat()` form (`none` models SQL `NULL`). -/
structure Row where
  id : Nat
  actor_id : String
  action : String
  resource_type : String
  resource_id : String
  old_values : Option Jval
  new_values : Option Jval
  previous_hash : String
  hash : String
  created_at : Option String
deriving DecidableEq

/-- Default row used with `List.getD`. -/
def dfltRow : Row :=
  { id := 0, actor_id := "", action := "", resource_type := "", resource_id := ""
    old_values := none, new_values := none, previous_hash := "", hash := ""
    created_at := none }

/-- The `audit_logs` table: rows in ascending `created_at` order, plus the
counter that stands in for the database's id generator. -/
structure DB where
  rows : List Row
  nextId : Nat

/-- A table with no rows. -/
def emptyDB : DB := { rows := [], nextId := 0 }

/-- The tip query of `log_change`:
`SELECT hash FROM audit_logs ORDER BY created_at DESC LIMIT 1`, i.e. the hash
of the newest row, or `"genesis"` for an empty table. -/
def readTip (db : DB) : String :=
  match db.rows.getLast? with
  | some r => r.hash
  | none => "genesis"

/-- The `log_data` dictionary assembled by `log_change`: `tsPy` is
`datetime.utcnow().isoformat()`. -/
def mkLogData (actor_id act resource_type resource_id : String)
    (old_val new_val : Option Jval) (tsPy : String) : LogData :=
  { actor := actor_id, action := act
    resource := resource_type ++ ":" ++ resource_id
    timestamp := some tsPy, old := old_val, new := new_val }

/-- The row `log_change` hands to `INSERT`: the hash covers
`(previous_hash, log_data)`, but the stored `old_values`/`new_values` columns
are `Json(v) if v else None` — a truthiness guard, so falsy values are stored
as SQL `NULL`.  The database assigns `created_at` (`tsDb`, stored rendered)
and the row id. -/
def mkRow (mac : String → String) (previous_hash : String)
    (actor_id act resource_type resource_id : String)
    (old_val new_val : Option Jval) (tsPy tsDb : String) : Row :=
  { id := 0
    actor_id := actor_id, action := act
    resource_type := resource_type, resource_id := resource_id
    old_values := if truthyOpt old_val then old_val else none
    new_values := if truthyOpt new_val then new_val else none
    previous_hash := previous_hash
    hash := compute_hash mac previous_hash
      (mkLogData actor_id act resource_type resource_id old_val new_val tsPy)
    created_at := some tsDb }

/-- The unconditional `INSERT ... RETURNING id` plus `conn.commit()`: there is
no check that the tip is still the one read earlier.  The only way the insert
fails is the `hash TEXT UNIQUE` constraint, in which case the transaction
rolls back and the table is unchanged (`none` models the raised exception). -/
def commitRow (db : DB) (row : Row) : DB × Option Nat :=
  if db.rows.any (fun r => r.hash == row.hash) then
    (db, none)
  else
    ({ rows := db.rows ++ [{ row with id := db.nextId }], nextId := db.nextId + 1 },
      some db.nextId)

/-- `AuditLogger.log_change`: read the tip (newest hash, else `"genesis"`),
hash the payload against it, insert, commit. -/
def log_change (mac : String → String) (db : DB)
    (actor_id act resource_type resource_id : String)
    (old_val new_val : Option Jval) (tsPy tsDb : String) : DB × Option Nat :=
  let previous_hash := readTip db
  let row := mkRow mac previous_hash actor_id act resource_type resource_id
    old_val new_val tsPy tsDb
  commitRow db row

/-- The `log_data` dictionary rebuilt by `verify_chain_integrity` from a
stored row: `old`/`new` come from the stored columns and `timestamp` is
`ts.isoformat() if ts else None` on the stored `created_at`. -/
def rowData (log : Row) : LogData :=
  { actor := log.actor_id, action := log.action
    resource := log.resource_type ++ ":" ++ log.resource_id
    timestamp := log.created_at
    old := log.old_values, new := log.new_values }

/-- One element of the `broken_links` list returned by
`verify_chain_integrity`. -/
structure BrokenLink where
  id : Nat
  expected : String
  found : String
deriving DecidableEq

/-- The body of the verification loop.  The accumulator mirrors the Python
locals `(broken_links, previous_hash)`; note that the comparison recomputes
the hash from the row's own stored `previous_hash` (`prev_hash` in the
source), while the running `previous_hash` component (`acc.2`) is updated to
the stored hash but never read. -/
def verifyStep (mac : String → String) (acc : List BrokenLink × String) (log : Row) :
    List BrokenLink × String :=
  let expected_hash := compute_hash mac log.previous_hash (rowData log)
  let broken_links :=
    if expected_hash ≠ log.hash then
      acc.1 ++ [{ id := log.id, expected := expected_hash, found := log.hash }]
    else acc.1
  (broken_links, log.hash)

/-- `AuditLogger.verify_chain_integrity`: scan all rows in ascending
`created_at` order, recompute each row's hash, collect mismatches, and return
`(len(broken_links) == 0, broken_links)`; an empty table returns
`(True, [])`. -/
def verify_chain_integrity (mac : String → String) (db : DB) :
    Bool × List BrokenLink :=
  let logs := db.rows
  if logs.isEmpty then
    (true, [])
  else
    let r := logs.foldl (verifyStep mac) ([], "genesis")
    (r.1.length == 0, r.1)

/-- The per-row verdict of the verification loop, taken out of the fold: the
break record a single row contributes. -/
def rowBreak (mac : String → String) (log : Row) : List BrokenLink :=
  let expected_hash := compute_hash mac log.previous_hash (rowData log)
  if expected_hash ≠ log.hash then
    [{ id := log.id, expected := expected_hash, found := log.hash }]
  else []

/-- The concatenation of all per-row verdicts, in table order. -/
def brokenOf (mac : String → String) : List Row → List BrokenLink
  | [] => []
  | r :: rest => rowBreak mac r ++ brokenOf mac rest

/-- One record of the list returned by `get_resource_history`. -/
structure HistoryRec where
  timestamp : Option String
  action : String
  actor : String
  old_values : Option Jval
  new_values : Option Jval
  hash : String

/-- The dictionary `get_resource_history` builds from a selected row. -/
def toRec (r : Row) : HistoryRec :=
  { timestamp := r.created_at, action := r.action, actor := r.actor_id
    old_values := r.old_values, new_values := r.new_values, hash := r.hash }

/-- The `WHERE resource_type = %s AND resource_id = %s` filter. -/
def matchesResource (resource_type resource_id : String) (r : Row) : Bool :=
  r.resource_type == resource_type && r.resource_id == resource_id

/-- `AuditLogger.get_resource_history`: filter by resource, order by
`created_at` descending (the reverse of table order), cap at `limit`. -/
def get_resource_history (db : DB) (resource_type resource_id : String)
    (limit : Nat) : List HistoryRec :=
  (((db.rows.filter (matchesResource resource_type resource_id)).reverse).take limit).map toRec

/-- `log_change` as the transaction the code runs, with a failure injection
point.  The statements inside the `try` block execute in order — tip
`SELECT` (0), `INSERT` into the transaction's pending writes (1),
`fetchone()` of the returned id (2), `conn.commit()` (3) — and an exception
raised at statement `failAt` reaches the `except` handler, which calls
`conn.rollback()` and re-raises: the pending write is discarded and nothing
was committed.  The result is the committed table visible to other readers
plus the returned id (`none` models the re-raised exception). -/
def log_change_tx (mac : String → String) (db : DB)
    (actor_id act resource_type resource_id : String)
    (old_val new_val : Option Jval) (tsPy tsDb : String)
    (failAt : Option Nat) : List Row × Option Nat :=
  let committed := db.rows
  let pending : List Row := []
  if failAt = some 0 then (committed, none)
  else
    let previous_hash := readTip db
    let row := { mkRow mac previous_hash actor_id act resource_type resource_id
        old_val new_val tsPy tsDb with id := db.nextId }
    if failAt = some 1 then (committed, none)
    else
      let pending := pending ++ [row]
      if failAt = some 2 then (committed, none)
      else
        if failAt = some 3 then (committed, none)
        else (committed ++ pending, some row.id)

/-- Modelled from the spec: the Chain Verifier algorithm of §4.4, which is
not what `verify_chain_integrity` implements.  It maintains a running link
initialized to `GENESIS`, recomputes each entry's expected link against the
*running* link (the stored link of the immediately preceding entry), and
advances the running link to the entry's stored link. -/
def verifySpecModel (mac : String → String) (db : DB) : Bool × List BrokenLink :=
  let r := db.rows.foldl
    (fun acc log =>
      let expected := compute_hash mac acc.2 (rowData log)
      let broken :=
        if expected ≠ log.hash then
          acc.1 ++ [{ id := log.id, expected := expected, found := log.hash }]
        else acc.1
      (broken, log.hash))
    ([], "genesis")
  (r.1.length == 0, r.1)

/-! ### Basic facts about the verifier -/

/-- One step of the verification fold appends that row's verdict and replaces
the (otherwise unused) running hash with the stored one. -/
theorem verifyStep_eq (mac : String → String) (acc : List BrokenLink × String) (log : Row) :
    verifyStep mac acc log = (acc.1 ++ rowBreak mac log, log.hash) := by
  unfold verifyStep rowBreak
  by_cases h : compute_hash mac log.previous_hash (rowData log) ≠ log.hash
  · simp [h]
  · simp [h]

theorem foldl_verifyStep (mac : String → String) :
    ∀ (rows : List Row) (bl : List BrokenLink) (ph : String),
      (rows.foldl (verifyStep mac) (bl, ph)).1 = bl ++ brokenOf mac rows
  | [], bl, ph => by simp [brokenOf]
  | r :: rest, bl, ph => by
    rw [List.foldl_cons, verifyStep_eq, foldl_verifyStep mac rest]
    simp [brokenOf]

/-- `verify_chain_integrity` returns the concatenated per-row verdicts and
the emptiness flag on them. -/
theorem verify_eq (mac : String → String) (db : DB) :
    verify_chain_integrity mac db =
      ((brokenOf mac db.rows).length == 0, brokenOf mac db.rows) := by
  unfold verify_chain_integrity
  cases hrows : db.rows with
  | nil => simp [brokenOf]
  | cons r rest =>
    have h1 := foldl_verifyStep mac (r :: rest) [] "genesis"
    simp only [List.isEmpty_cons, Bool.false_eq_true, if_false]
    cases hfold : (r :: rest).foldl (verifyStep mac) ([], "genesis") with
    | mk fst snd =>
      rw [hfold] at h1
      simp only [List.nil_append] at h1
      simp [h1]

theorem brokenOf_append (mac : String → String) (l₁ l₂ : List Row) :
    brokenOf mac (l₁ ++ l₂) = brokenOf mac l₁ ++ brokenOf mac l₂ := by
  induction l₁ with
  | nil => simp [brokenOf]
  | cons r rest ih => simp [brokenOf, ih]

theorem brokenOf_eq_nil_iff (mac : String → String) (rows : List Row) :
    brokenOf mac rows = [] ↔ ∀ r ∈ rows, rowBreak mac r = [] := by
  induction rows with
  | nil => simp [brokenOf]
  | cons r rest ih =>
    simp [brokenOf, List.append_eq_nil, ih]

/-- A row contributes no break exactly when its recomputed hash (from its own
stored `previous_hash`) matches its stored hash. -/
theorem rowBreak_eq_nil_iff (mac : String → String) (log : Row) :
    rowBreak mac log = [] ↔
      compute_hash mac log.previous_hash (rowData log) = log.hash := by
  unfold rowBreak
  by_cases h : compute_hash mac log.previous_hash (rowData log) = log.hash
  · simp [h]
  · simp [h]

theorem rowBreak_of_ne (mac : String → String) (log : Row)
    (h : compute_hash mac log.previous_hash (rowData log) ≠ log.hash) :
    rowBreak mac log =
      [{ id := log.id,
         expected := compute_hash mac log.previous_hash (rowData log),
         found := log.hash }] := by
  unfold rowBreak
  simp [h]

/-- A chain is accepted exactly when every row is individually
self-consistent. -/
theorem verify_valid_iff (mac : String → String) (db : DB) :
    verify_chain_integrity mac db = (true, []) ↔
      ∀ r ∈ db.rows, rowBreak mac r = [] := by
  rw [verify_eq, ← brokenOf_eq_nil_iff mac db.rows]
  constructor
  · intro h
    exact (Prod.mk.injEq _ _ _ _ ▸ h).2
  · intro h
    rw [h]
    rfl

/-! ### String cancellation helpers -/

theorem string_append_cancel_left (a b c : String) (h : a ++ b = a ++ c) : b = c := by
  have hd := congrArg String.data h
  simp only [String.data_append] at hd
  exact String.ext (List.append_cancel_left hd)

theorem string_append_cancel_right (a b c : String) (h : a ++ c = b ++ c) : a = b := by
  have hd := congrArg String.data h
  simp only [String.data_append] at hd
  exact String.ext (List.append_cancel_right hd)

/-- Hashes of payloads with distinct canonical serializations differ, for a
collision-free keyed hash, when chained to the same previous link. -/
theorem compute_hash_ne (mac : String → String) (hinj : Function.Injective mac)
    (prev : String) (d₁ d₂ : LogData)
    (hne : dumpsLogData d₁ ≠ dumpsLogData d₂) :
    compute_hash mac prev d₁ ≠ compute_hash mac prev d₂ := by
  intro h
  exact hne (string_append_cancel_left _ _ _ (hinj h))

/-! ### Claim theorems -/

/-- C6: the first entry committed to an empty chain has
`previous_hash = "genesis"`, and verification of an empty chain returns
`(True, [])`. -/
theorem c6_genesis (mac : String → String)
    (actor_id act resource_type resource_id : String)
    (old_val new_val : Option Jval) (tsPy tsDb : String) :
    ((log_change mac emptyDB actor_id act resource_type resource_id old_val new_val
        tsPy tsDb).1.rows.head?).map Row.previous_hash = some "genesis"
      ∧ verify_chain_integrity mac emptyDB = (true, []) := by
  constructor
  · simp [log_change, commitRow, mkRow, readTip, emptyDB]
  · rfl

/-- C5: the chain-linking invariant — every non-first row's `previous_hash`
equals the hash of the row immediately before it in chain order — is
preserved by every `log_change`, whether the insert commits (the new row is
chained to the current tip's hash) or rolls back (the table is unchanged). -/
theorem c5_chain_link_invariant_preserved (mac : String → String) (db : DB)
    (actor_id act resource_type resource_id : String)
    (old_val new_val : Option Jval) (tsPy tsDb : String)
    (hch : List.Chain' (fun a b => b.previous_hash = a.hash) db.rows) :
    List.Chain' (fun a b => b.previous_hash = a.hash)
      (log_change mac db actor_id act resource_type resource_id old_val new_val
        tsPy tsDb).1.rows := by
  unfold log_change commitRow
  by_cases hdup : db.rows.any (fun r =>
      r.hash == (mkRow mac (readTip db) actor_id act resource_type resource_id
        old_val new_val tsPy tsDb).hash)
  · simpa [hdup] using hch
  · simp only [hdup, if_false, Bool.false_eq_true]
    rw [List.chain'_append]
    refine ⟨hch, List.chain'_singleton _, ?_⟩
    intro x hx y hy
    have hy' : _ = y := Option.some.inj hy
    rw [← hy']
    show (mkRow mac (readTip db) actor_id act resource_type resource_id
        old_val new_val tsPy tsDb).previous_hash = x.hash
    unfold readTip mkRow
    rw [show db.rows.getLast? = some x from hx]

/-- C5 witness: the invariant holds after appending to the empty chain. -/
theorem c5_witness :
    List.Chain' (fun a b => b.previous_hash = a.hash)
      (log_change (fun s => s) emptyDB "u1" "CREATE" "INVOICE" "inv1" none
        (some (Jval.jstr "a")) "t0" "t0").1.rows :=
  c5_chain_link_invariant_preserved (fun s => s) emptyDB "u1" "CREATE" "INVOICE"
    "inv1" none (some (Jval.jstr "a")) "t0" "t0" List.chain'_nil

/-- C9: a failure at any statement of the append transaction — tip read (0),
insert (1), id fetch (2) or commit (3) — rolls the transaction back: the
committed table other readers see is exactly the one before the call, and no
id is returned. -/
theorem c9_append_atomicity (mac : String → String) (db : DB)
    (actor_id act resource_type resource_id : String)
    (old_val new_val : Option Jval) (tsPy tsDb : String)
    (k : Nat) (hk : k ≤ 3) :
    log_change_tx mac db actor_id act resource_type resource_id old_val new_val
      tsPy tsDb (some k) = (db.rows, none) := by
  interval_cases k <;> rfl

/-- C9 witness: a failure at the id fetch, after the insert, leaves the empty
table empty. -/
theorem c9_witness :
    log_change_tx (fun s => s) emptyDB "u1" "CREATE" "INVOICE" "inv1" none
      (some (Jval.jstr "a")) "t0" "t0" (some 2) = ([], none) :=
  c9_append_atomicity (fun s => s) emptyDB "u1" "CREATE" "INVOICE" "inv1" none
    (some (Jval.jstr "a")) "t0" "t0" 2 (by decide)

/-- The first of two interleaved append attempts: both attempts read the tip
of the empty chain before either inserts, then commit in turn. -/
def c4attempt₁ : DB × Option Nat :=
  commitRow emptyDB (mkRow (fun s => s) (readTip emptyDB) "u1" "CREATE"
    "INVOICE" "inv1" none (some (Jval.jstr "a")) "t0" "t0")

/-- The second interleaved append attempt, whose tip was also read before the
first attempt's insert. -/
def c4attempt₂ : DB × Option Nat :=
  commitRow c4attempt₁.1 (mkRow (fun s => s) (readTip emptyDB) "u2" "CREATE"
    "INVOICE" "inv1" none (some (Jval.jstr "b")) "t1" "t1")

/-- C4: the code has no conditional commit, so two append attempts that both
read the same tip (interleaved reads before either insert) both commit,
producing two committed rows with the same observed `previous_hash`
(`"genesis"`) — a fork.  This refutes the claimed guarantee at a concrete
interleaving. -/
theorem c4_fork_on_shared_tip :
    c4attempt₁.2.isSome = true ∧ c4attempt₂.2.isSome = true
      ∧ c4attempt₂.1.rows.length = 2
      ∧ (c4attempt₂.1.rows.getD 0 dfltRow).previous_hash = readTip emptyDB
      ∧ (c4attempt₂.1.rows.getD 1 dfltRow).previous_hash = readTip emptyDB := by
  decide

/-- The chain after appending entry A of the round-trip scenario to the empty
chain: `utcnow()` rendered `"tp0"`, the database clock rendered `"td0"`. -/
def c1dbA : DB :=
  (log_change (fun s => s) emptyDB "u1" "CREATE" "INVOICE" "inv1"
    none (some (Jval.jobjCons "status" (Jval.jstr "draft") Jval.jobjNil))
    "tp0" "td0").1

/-- The chain after appending entry B of the round-trip scenario. -/
def c1dbB : DB :=
  (log_change (fun s => s) c1dbA "u1" "UPDATE" "INVOICE" "inv1"
    (some (Jval.jobjCons "status" (Jval.jstr "draft") Jval.jobjNil))
    (some (Jval.jobjCons "status" (Jval.jstr "paid") Jval.jobjNil))
    "tp1" "td1").1

set_option maxRecDepth 100000 in
/-- C1: the append-then-verify round trip of the scenario (append A then B)
does set `A.previous_hash = "genesis"` and `B.previous_hash = A.hash`, but
verification then reports every freshly committed entry as broken, because
the hash covered `datetime.utcnow().isoformat()` (`tp0`/`tp1`) while the
verifier recomputes from the database-assigned `created_at` (`td0`/`td1`),
a value the code never stores in the hashed form. -/
theorem c1_roundtrip_fails_on_fresh_chain :
    (c1dbB.rows.getD 0 dfltRow).previous_hash = "genesis"
      ∧ (c1dbB.rows.getD 1 dfltRow).previous_hash = (c1dbB.rows.getD 0 dfltRow).hash
      ∧ (verify_chain_integrity (fun s => s) c1dbB).1 = false
      ∧ (verify_chain_integrity (fun s => s) c1dbB).2.length = 2 := by decide

/-- First row of the C3 store: an honestly appended, self-consistent row. -/
def c3row0 : Row :=
  { mkRow (fun s => s) "genesis" "u1" "CREATE" "INVOICE" "inv1" none
      (some (Jval.jstr "a")) "t0" "t0" with id := 0 }

/-- Second row of the C3 store: its `previous_hash` has been re-pointed to
`"genesis"` (it does not equal the first row's hash) and its stored hash is
consistent with its own stored `previous_hash`. -/
def c3row1 : Row :=
  { id := 1, actor_id := "u1", action := "UPDATE", resource_type := "INVOICE"
    resource_id := "inv1", old_values := none
    new_values := some (Jval.jstr "b")
    previous_hash := "genesis"
    hash := compute_hash (fun s => s) "genesis"
      (mkLogData "u1" "UPDATE" "INVOICE" "inv1" none (some (Jval.jstr "b")) "t1")
    created_at := some "t1" }

/-- A stored chain whose second row no longer chains to the first. -/
def c3db : DB := { rows := [c3row0, c3row1], nextId := 2 }

/-- C3: the verifier does not compare against a running link.  On a store
whose second row was re-linked to `"genesis"` (so it does not chain to the
first row), `verify_chain_integrity` — which recomputes each row's hash from
that row's own stored `previous_hash` and never reads its running variable —
returns `(True, [])`, while the running-link algorithm of the claim
(`verifySpecModel`) reports exactly one break, at the second row. -/
theorem c3_running_link_unused :
    verify_chain_integrity (fun s => s) c3db = (true, [])
      ∧ (verifySpecModel (fun s => s) c3db).1 = false
      ∧ (verifySpecModel (fun s => s) c3db).2.length = 1
      ∧ ((verifySpecModel (fun s => s) c3db).2.getD 0
          { id := 0, expected := "", found := "" }).id = 1 := by decide

/-- C7: the verdict for each row depends only on that row (the break list is
the concatenation of per-row verdicts), so removing any subset of rows from a
chain the verifier accepts — here: any sublist of the stored rows — still
verifies as `(True, [])`: deletion is never reported. -/
theorem c7_deletion_never_reported (mac : String → String) (db : DB)
    (rows' : List Row) (n : Nat)
    (hvalid : verify_chain_integrity mac db = (true, []))
    (hsub : rows'.Sublist db.rows) :
    verify_chain_integrity mac { rows := rows', nextId := n } = (true, [])
      ∧ (verify_chain_integrity mac db).2 = brokenOf mac db.rows := by
  constructor
  · rw [verify_valid_iff]
    intro x hx
    exact (verify_valid_iff mac db).mp hvalid x (hsub.subset hx)
  · rw [verify_eq]

/-- A three-entry chain produced by three appends whose hashed timestamp and
stored `created_at` happen to render identically, so that every row is
self-consistent and the verifier accepts it.  Shared by several witnesses. -/
def wDb : DB :=
  (log_change (fun s => s)
    ((log_change (fun s => s)
      ((log_change (fun s => s) emptyDB "u1" "CREATE" "INVOICE" "inv1" none
        (some (Jval.jstr "a")) "t0" "t0").1)
      "u1" "UPDATE" "INVOICE" "inv1" (some (Jval.jstr "a"))
      (some (Jval.jstr "b")) "t1" "t1").1)
    "u1" "UPDATE" "INVOICE" "inv1" (some (Jval.jstr "b"))
    (some (Jval.jstr "c")) "t2" "t2").1

set_option maxRecDepth 100000 in
/-- C7 witness: deleting the first entry of an accepted three-entry chain
still verifies as `(True, [])`. -/
theorem c7_witness :
    verify_chain_integrity (fun s => s)
        { rows := wDb.rows.drop 1, nextId := wDb.nextId } = (true, [])
      ∧ (verify_chain_integrity (fun s => s) wDb).2 =
          brokenOf (fun s => s) wDb.rows :=
  c7_deletion_never_reported (fun s => s) wDb (wDb.rows.drop 1) wDb.nextId
    (by decide) (List.drop_sublist 1 wDb.rows)

/-- Overwrite a row's `new_values` column. -/
def withNew (r : Row) (v : Jval) : Row := { r with new_values := some v }

/-- Alter entry `k`'s `new_values` in storage without recomputing its stored
hash or `previous_hash`. -/
def tamperNew (db : DB) (k : Nat) (v : Jval) : DB :=
  { db with rows := db.rows.set k (withNew (db.rows.getD k dfltRow) v) }

/-- C2: on any chain the verifier accepts, of length at least 3, altering
entry `k`'s `new_values` in storage (to anything whose canonical
serialization differs) makes verification report exactly one break — at
entry `k`, carrying the recomputed expected hash and the stored hash — and
no entry before or after `k` is flagged. -/
theorem c2_single_tamper_localized (mac : String → String)
    (hinj : Function.Injective mac) (db : DB) (k : Nat) (v : Jval)
    (hvalid : verify_chain_integrity mac db = (true, []))
    (_hlen : 3 ≤ db.rows.length) (hk : k < db.rows.length)
    (hne : dumpsLogData (rowData (withNew (db.rows.getD k dfltRow) v))
      ≠ dumpsLogData (rowData (db.rows.getD k dfltRow))) :
    verify_chain_integrity mac (tamperNew db k v) =
      (false,
        [{ id := (db.rows.getD k dfltRow).id
           expected := compute_hash mac (db.rows.getD k dfltRow).previous_hash
             (rowData (withNew (db.rows.getD k dfltRow) v))
           found := (db.rows.getD k dfltRow).hash }]) := by
  have hall := (verify_valid_iff mac db).mp hvalid
  have hmem : db.rows.getD k dfltRow ∈ db.rows := by
    rw [List.getD_eq_getElem db.rows dfltRow hk]
    exact List.getElem_mem hk
  have hself : compute_hash mac (db.rows.getD k dfltRow).previous_hash
      (rowData (db.rows.getD k dfltRow)) = (db.rows.getD k dfltRow).hash :=
    (rowBreak_eq_nil_iff mac _).mp (hall _ hmem)
  have hne2 : compute_hash mac (withNew (db.rows.getD k dfltRow) v).previous_hash
      (rowData (withNew (db.rows.getD k dfltRow) v))
      ≠ (withNew (db.rows.getD k dfltRow) v).hash := by
    show compute_hash mac (db.rows.getD k dfltRow).previous_hash
        (rowData (withNew (db.rows.getD k dfltRow) v))
      ≠ (db.rows.getD k dfltRow).hash
    rw [← hself]
    exact compute_hash_ne mac hinj _ _ _ hne
  have hbr := rowBreak_of_ne mac _ hne2
  have htake : brokenOf mac (db.rows.take k) = [] := by
    rw [brokenOf_eq_nil_iff]
    exact fun x hx => hall x (List.mem_of_mem_take hx)
  have hdrop : brokenOf mac (db.rows.drop (k + 1)) = [] := by
    rw [brokenOf_eq_nil_iff]
    exact fun x hx => hall x ((List.drop_sublist (k + 1) db.rows).subset hx)
  have hset : db.rows.set k (withNew (db.rows.getD k dfltRow) v) =
      db.rows.take k ++ withNew (db.rows.getD k dfltRow) v :: db.rows.drop (k + 1) := by
    rw [List.set_eq_take_append_cons_drop, if_pos hk]
  have hbroken : brokenOf mac (tamperNew db k v).rows =
      [{ id := (db.rows.getD k dfltRow).id
         expected := compute_hash mac (db.rows.getD k dfltRow).previous_hash
           (rowData (withNew (db.rows.getD k dfltRow) v))
         found := (db.rows.getD k dfltRow).hash }] := by
    show brokenOf mac (db.rows.set k (withNew (db.rows.getD k dfltRow) v)) = _
    rw [hset, brokenOf_append, htake]
    simp only [brokenOf, hdrop, List.append_nil, List.nil_append]
    exact hbr
  rw [verify_eq, hbroken]
  rfl

set_option maxRecDepth 100000 in
/-- C2 witness: altering the middle entry of an accepted three-entry chain is
reported as exactly one break, at that entry. -/
theorem c2_witness :
    verify_chain_integrity (fun s => s) (tamperNew wDb 1 (Jval.jstr "x")) =
      (false,
        [{ id := (wDb.rows.getD 1 dfltRow).id
           expected := compute_hash (fun s => s)
             (wDb.rows.getD 1 dfltRow).previous_hash
             (rowData (withNew (wDb.rows.getD 1 dfltRow) (Jval.jstr "x")))
           found := (wDb.rows.getD 1 dfltRow).hash }]) :=
  c2_single_tamper_localized (fun s => s) (fun _ _ h => h) wDb 1 (Jval.jstr "x")
    (by decide) (by decide) (by decide) (by decide)

/-- The serialization of a falsy, non-null JSON value (`false`, `0`, `""`,
`[]`, `\x7b\x7d`) never has the length of `"null"`. -/
theorem falsy_dump_length (v : Jval) (hfalsy : vtruthy v = false)
    (hnn : v ≠ Jval.jnull) : (dumpJval v).length ≠ 4 := by
  cases v with
  | jnull => exact absurd rfl hnn
  | jbool b =>
      cases b with
      | false => decide
      | true => simp [vtruthy] at hfalsy
  | jnum n =>
      have h0 : n = 0 := by simpa [vtruthy] using hfalsy
      subst h0
      decide
  | jstr s =>
      have h0 : s = "" := by simpa [vtruthy] using hfalsy
      subst h0
      decide
  | jarrNil => decide
  | jarrCons hd tl => simp [vtruthy] at hfalsy
  | jobjNil => decide
  | jobjCons key val tl => simp [vtruthy] at hfalsy

/-- Two hashed dictionaries that agree on every field except `old`, whose
rendered `old` values have different lengths, serialize differently. -/
theorem dumpsLogData_old_ne (d₁ d₂ : LogData)
    (hact : d₁.action = d₂.action) (hactor : d₁.actor = d₂.actor)
    (hnew : d₁.new = d₂.new) (hres : d₁.resource = d₂.resource)
    (hts : d₁.timestamp = d₂.timestamp)
    (hlen : (dumpOpt d₁.old).length ≠ (dumpOpt d₂.old).length) :
    dumpsLogData d₁ ≠ dumpsLogData d₂ := by
  intro h
  unfold dumpsLogData at h
  rw [hact, hactor, hnew, hres, hts] at h
  have h₁ := string_append_cancel_left _ _ _ h
  have h₂ := string_append_cancel_right _ _ _ h₁
  exact hlen (congrArg String.length h₂)

/-- C8: appending with a falsy but non-`None` `old_val` (such as `\x7b\x7d`)
hashes the value but stores the `old_values` column as SQL `NULL` (the guard
`Json(old_val) if old_val else None` tests truthiness, not `is None`), so
verification immediately reports the freshly committed, untampered entry as
a break.  Stated for an append to the empty chain whose hashed timestamp and
stored `created_at` render identically, so the mismatch is attributable to
the guard alone. -/
theorem c8_falsy_payload_breaks_fresh_entry (mac : String → String)
    (hinj : Function.Injective mac)
    (actor_id act resource_type resource_id : String) (v : Jval)
    (new_val : Option Jval) (ts : String)
    (hfalsy : vtruthy v = false) (hnn : v ≠ Jval.jnull)
    (hnew : truthyOpt new_val = true ∨ new_val = none) :
    let db' := (log_change mac emptyDB actor_id act resource_type resource_id
      (some v) new_val ts ts).1
    db'.rows.length = 1
      ∧ (db'.rows.getD 0 dfltRow).old_values = none
      ∧ (db'.rows.getD 0 dfltRow).hash =
          compute_hash mac "genesis"
            (mkLogData actor_id act resource_type resource_id (some v) new_val ts)
      ∧ (verify_chain_integrity mac db').1 = false := by
  intro db'
  have hnv : (if truthyOpt new_val then new_val else none) = new_val := by
    rcases hnew with h | h
    · rw [if_pos h]
    · rw [h]
      rfl
  have hrows : db'.rows =
      [{ mkRow mac "genesis" actor_id act resource_type resource_id (some v)
          new_val ts ts with id := 0 }] := by
    show ((log_change mac emptyDB actor_id act resource_type resource_id
      (some v) new_val ts ts).1).rows = _
    simp [log_change, commitRow, readTip, emptyDB]
  have hto : truthyOpt (some v) = false := hfalsy
  have hrdata : rowData ({ mkRow mac "genesis" actor_id act resource_type
      resource_id (some v) new_val ts ts with id := 0 }) =
      { actor := actor_id, action := act
        resource := resource_type ++ ":" ++ resource_id
        timestamp := some ts, old := none, new := new_val } := by
    simp [rowData, mkRow, hto, hnv]
  have hd1 : mkLogData actor_id act resource_type resource_id (some v) new_val ts =
      { actor := actor_id, action := act
        resource := resource_type ++ ":" ++ resource_id
        timestamp := some ts, old := some v, new := new_val } := rfl
  have hne_d : dumpsLogData (rowData ({ mkRow mac "genesis" actor_id act
      resource_type resource_id (some v) new_val ts ts with id := 0 }))
      ≠ dumpsLogData (mkLogData actor_id act resource_type resource_id (some v)
        new_val ts) := by
    rw [hrdata, hd1]
    refine dumpsLogData_old_ne
      { actor := actor_id, action := act
        resource := resource_type ++ ":" ++ resource_id
        timestamp := some ts, old := none, new := new_val }
      { actor := actor_id, action := act
        resource := resource_type ++ ":" ++ resource_id
        timestamp := some ts, old := some v, new := new_val }
      rfl rfl rfl rfl rfl ?_
    show ("null".length : Nat) ≠ (dumpJval v).length
    exact fun h => falsy_dump_length v hfalsy hnn h.symm
  have hbr_ne : rowBreak mac ({ mkRow mac "genesis" actor_id act resource_type
      resource_id (some v) new_val ts ts with id := 0 }) ≠ [] := by
    intro hc
    rw [rowBreak_eq_nil_iff] at hc
    exact compute_hash_ne mac hinj _ _ _ hne_d hc
  refine ⟨?_, ?_, ?_, ?_⟩
  · rw [hrows]
    rfl
  · rw [hrows]
    show (if truthyOpt (some v) then some v else none) = none
    simp [truthyOpt, hfalsy]
  · rw [hrows]
    rfl
  · rw [verify_eq, hrows]
    cases hx : rowBreak mac ({ mkRow mac "genesis" actor_id act resource_type
        resource_id (some v) new_val ts ts with id := 0 }) with
    | nil => exact absurd hx hbr_ne
    | cons b bs =>
        simp [brokenOf, hx]

set_option maxRecDepth 100000 in
/-- C8 witness: appending `old_val = \x7b\x7d` to the empty chain stores
`NULL`, hashes `\x7b\x7d`, and the fresh entry fails verification. -/
theorem c8_witness :
    let db' := (log_change (fun s => s) emptyDB "u1" "UPDATE" "INVOICE" "inv1"
      (some Jval.jobjNil)
      (some (Jval.jobjCons "status" (Jval.jstr "paid") Jval.jobjNil)) "t0" "t0").1
    db'.rows.length = 1
      ∧ (db'.rows.getD 0 dfltRow).old_values = none
      ∧ (db'.rows.getD 0 dfltRow).hash =
          compute_hash (fun s => s) "genesis"
            (mkLogData "u1" "UPDATE" "INVOICE" "inv1" (some Jval.jobjNil)
              (some (Jval.jobjCons "status" (Jval.jstr "paid") Jval.jobjNil)) "t0")
      ∧ (verify_chain_integrity (fun s => s) db').1 = false :=
  c8_falsy_payload_breaks_fresh_entry (fun s => s) (fun _ _ h => h) "u1" "UPDATE"
    "INVOICE" "inv1" Jval.jobjNil
    (some (Jval.jobjCons "status" (Jval.jstr "paid") Jval.jobjNil)) "t0" rfl
    (fun h => Jval.noConfusion h) (Or.inl rfl)

/-- C10: the history query returns at most `limit` records; every record
comes from a stored row matching the requested `resource_type` and
`resource_id`; when `limit` is large enough it returns all matching rows in
descending chain order; and its reverse is a sublist of the table in chain
order (i.e. the records appear in descending chain order). -/
theorem c10_resource_history (db : DB) (resource_type resource_id : String)
    (limit : Nat) :
    let h := get_resource_history db resource_type resource_id limit
    h.length ≤ limit
      ∧ (∀ x ∈ h, ∃ r, r ∈ db.rows
          ∧ matchesResource resource_type resource_id r = true ∧ x = toRec r)
      ∧ ((db.rows.filter (matchesResource resource_type resource_id)).length ≤ limit →
          h = ((db.rows.filter (matchesResource resource_type resource_id)).reverse).map toRec)
      ∧ h.reverse.Sublist (db.rows.map toRec) := by
  refine ⟨?_, ?_, ?_, ?_⟩
  · show ((((db.rows.filter (matchesResource resource_type resource_id)).reverse).take
        limit).map toRec).length ≤ limit
    rw [List.length_map, List.length_take]
    exact min_le_left _ _
  · intro x hx
    simp only [get_resource_history, List.mem_map] at hx
    obtain ⟨r, hr, hxr⟩ := hx
    have hr₂ : r ∈ (db.rows.filter (matchesResource resource_type resource_id)).reverse :=
      List.mem_of_mem_take hr
    rw [List.mem_reverse] at hr₂
    obtain ⟨hmem, hp⟩ := List.mem_filter.mp hr₂
    exact ⟨r, hmem, hp, hxr.symm⟩
  · intro hle
    show ((((db.rows.filter (matchesResource resource_type resource_id)).reverse).take
        limit).map toRec) = _
    rw [List.take_of_length_le]
    rw [List.length_reverse]
    exact hle
  · show (((((db.rows.filter (matchesResource resource_type resource_id)).reverse).take
        limit).map toRec).reverse).Sublist (db.rows.map toRec)
    rw [← List.map_reverse]
    apply List.Sublist.map
    have h₁ := (List.take_sublist limit
      (db.rows.filter (matchesResource resource_type resource_id)).reverse).reverse
    rw [List.reverse_reverse] at h₁
    exact h₁.trans (List.filter_sublist db.rows)

set_option maxRecDepth 100000 in
/-- C10 witness: the history of `INVOICE:inv1` over the three-entry chain,
capped at two records. -/
theorem c10_witness :
    let h := get_resource_history wDb "INVOICE" "inv1" 2
    h.length ≤ 2
      ∧ (∀ x ∈ h, ∃ r, r ∈ wDb.rows
          ∧ matchesResource "INVOICE" "inv1" r = true ∧ x = toRec r)
      ∧ ((wDb.rows.filter (matchesResource "INVOICE" "inv1")).length ≤ 2 →
          h = ((wDb.rows.filter (matchesResource "INVOICE" "inv1")).reverse).map toRec)
      ∧ h.reverse.Sublist (wDb.rows.map toRec) :=
  c10_resource_history wDb "INVOICE" "inv1" 2

end AuditLog
